import Mathlib

/-!
Shallow embedding of the `fishy` hydrologic-alteration pipeline
(IHA indicator extraction, DHRAM classification, IARI deviation scoring).

Flows and derived statistics are embedded over `ℚ` (the Python code uses
IEEE doubles; every numeric rule under verification is exact arithmetic,
comparisons and branches, so rationals model them faithfully).  NumPy's NaN
sentinel, which the code can only produce in the Group-1 monthly means and
the base-flow-index column, is modelled by `Option ℚ` cells (`none` = NaN).
Dates (`numpy.datetime64[D]`) are embedded as natural numbers counting days
since 1970-01-01, restricting the model to dates from the epoch onwards.
-/

namespace Fishy

set_option maxRecDepth 100000

/-- Arithmetic mean of a list of rationals, `np.mean`: sum divided by
length (`0` for the empty list, which the code only reaches where NumPy
would be guarded by an emptiness test). -/
def listMean (l : List ℚ) : ℚ := l.sum / l.length

/-- `np.min` over a list, with an explicit default for the empty list
(NumPy raises there; all call sites are guarded or nonempty). -/
def listMinD (l : List ℚ) (dflt : ℚ) : ℚ :=
  match l with
  | [] => dflt
  | x :: xs => xs.foldl min x

/-- `np.max` over a list, with an explicit default for the empty list. -/
def listMaxD (l : List ℚ) (dflt : ℚ) : ℚ :=
  match l with
  | [] => dflt
  | x :: xs => xs.foldl max x

/-- First-difference series `np.diff`: element `i` is `q[i+1] - q[i]`. -/
def diffSeries (q : List ℚ) : List ℚ :=
  List.zipWith (fun a b => b - a) q q.tail

section IariDeviation

/-!
### IARI deviation scoring (`fishy/iari/_deviation.py`)

`compute_deviations` is a vectorised elementwise formula; `deviationElem`
is its scalar translation: `below = q25 - x`, `above = x - q75`,
`raw = max(max(below, above), 0)`, then `raw / iqr` when the band has
positive width, else `1.0` for a nonzero distance and `0.0` otherwise
(the `np.where(has_iqr, raw/safe_iqr, np.where(raw > 0, 1, 0))` branch).
-/

/-- Scalar body of `compute_deviations`: deviation of one impacted value
`x` from one parameter's natural band `[q25, q75]`. -/
def deviationElem (q25 q75 x : ℚ) : ℚ :=
  let below := q25 - x
  let above := x - q75
  let raw := max (max below above) 0
  let iqr := q75 - q25
  let safeIqr := if 0 < iqr then iqr else 1
  if 0 < iqr then raw / safeIqr
  else if 0 < raw then 1 else 0

/-- `compute_deviations` on a year×33 matrix: elementwise `deviationElem`
against the per-column bands. -/
def computeDeviations (impactedValues : List (List ℚ)) (q25 q75 : List ℚ) :
    List (List ℚ) :=
  impactedValues.map fun row =>
    List.zipWith (fun b x => deviationElem b.1 b.2 x) (q25.zip q75) row

/-- `classify_iari`: qualitative label for an overall IARI score
(thresholds 0.05 / 0.15 from `fishy/iari/types.py`). -/
def classifyIari (value : ℚ) : String :=
  if value ≤ 5 / 100 then "Excellent"
  else if value ≤ 15 / 100 then "Good"
  else "Poor"

end IariDeviation

section DhramIndicators

/-!
### DHRAM scoring tables and classification (`fishy/dhram/_indicators.py`,
`fishy/dhram/types.py`)
-/

/-- `CLASS_BOUNDARIES`: inclusive lower bounds for DHRAM classes 1-5. -/
def CLASS_BOUNDARIES : List ℤ := [0, 1, 5, 11, 21]

/-- `classify`: scan the boundaries from highest to lowest and return
`i + 1` for the first index whose boundary is `≤ total_points`,
falling back to class 1. -/
def classify (totalPoints : ℤ) : ℕ :=
  match (List.range CLASS_BOUNDARIES.length).reverse.find?
      (fun i => CLASS_BOUNDARIES.getD i 0 ≤ totalPoints) with
  | some i => i + 1
  | none => 1

/-- `apply_supplementary`: add one point per raised supplementary flag and
cap the class at 5. -/
def applySupplementary (preliminaryClass : ℕ)
    (flowCessation subdailyOscillation : Bool) : ℕ :=
  min (preliminaryClass + (if flowCessation then 1 else 0)
        + (if subdailyOscillation then 1 else 0)) 5

/-- `WFD_LABELS` and `wfd_label`: map a DHRAM class (1-5) to its Water
Framework Directive status label. -/
def wfdLabel (dhramClass : ℕ) : String :=
  ["High", "Good", "Moderate", "Poor", "Bad"].getD (dhramClass - 1) "High"

end DhramIndicators

/-- C2 spec side: for the ascending, duplicate-free boundary list, the
1-based index of the highest boundary `≤ p` is the number of boundaries
`≤ p`. -/
def highestBoundaryIndex (p : ℤ) : ℕ :=
  CLASS_BOUNDARIES.countP (fun b => b ≤ p)

section Calendar

/-!
### Calendar model (`fishy/iha/_util.py`)

`numpy.datetime64[D]` values are embedded as day counts from 1970-01-01
(ℕ, restricting the model to on-or-after-epoch dates).  The casts
`astype('datetime64[Y]')` / `astype('datetime64[M]')` used by
`dates_to_components` follow the proleptic Gregorian calendar, embedded
here through the Gregorian leap rule that `extract_year_slices` also
spells out inline (`year % 4 == 0 and (year % 100 != 0 or year % 400 == 0)`).
-/

/-- Gregorian leap-year rule, as written in `extract_year_slices`. -/
def isLeap (y : ℕ) : Bool := y % 4 == 0 && (y % 100 != 0 || y % 400 == 0)

/-- Length of calendar year `y` (the `expected` count in
`extract_year_slices`). -/
def daysInYear (y : ℕ) : ℕ := if isLeap y then 366 else 365

/-- Total days of the `k` consecutive calendar years starting at year `y`. -/
def sumDays (y k : ℕ) : ℕ := ((List.range k).map (fun i => daysInYear (y + i))).sum

/-- Epoch day number of 1 January of year `y` (for `y ≥ 1970`). -/
def yearStartDay (y : ℕ) : ℕ := sumDays 1970 (y - 1970)

/-- Fuelled worker for `yearSplit` (structural recursion on the fuel so
the kernel can evaluate it; every step strictly shrinks the day count, so
fuel `d + 1` always suffices — see `yearSplitAux_congr`). -/
def yearSplitAux : ℕ → ℕ → ℕ → ℕ × ℕ
  | 0, y, d => (y, d)
  | fuel + 1, y, d =>
    if d < daysInYear y then (y, d)
    else yearSplitAux fuel (y + 1) (d - daysInYear y)

/-- Walk forward from year `y`, peeling whole calendar years off the day
count `d`; returns the landing year and the remaining 0-based day of
year.  This is the ℕ-day embedding of the `datetime64[Y]` cast. -/
def yearSplit (y d : ℕ) : ℕ × ℕ := yearSplitAux (d + 1) y d

/-- Calendar year of an epoch day (`dates.astype('datetime64[Y]') + 1970`). -/
def yearOfDay (d : ℕ) : ℕ := (yearSplit 1970 d).1

/-- 0-based day-of-year of an epoch day. -/
def dayOfYear0 (d : ℕ) : ℕ := (yearSplit 1970 d).2

/-- 1-based day-of-year (`(dates - years_dt) + 1` in
`dates_to_components`). -/
def dayOfYear1 (d : ℕ) : ℕ := dayOfYear0 d + 1

/-- Month lengths for a (non-)leap year. -/
def monthLengths (leap : Bool) : List ℕ :=
  [31, if leap then 29 else 28, 31, 30, 31, 30, 31, 31, 30, 31, 30, 31]

/-- Days before month `m` (1-based) in a year with leap flag `leap`. -/
def cumMonth (leap : Bool) (m : ℕ) : ℕ := ((monthLengths leap).take m).sum

/-- Month (1-12) of a 0-based day of year: one plus the number of whole
months that fit before it. -/
def monthFromDoy0 (leap : Bool) (doy0 : ℕ) : ℕ :=
  (List.range 12).countP (fun m => cumMonth leap (m + 1) ≤ doy0) + 1

/-- Calendar month of an epoch day (`(months_dt - years_dt) + 1` in
`dates_to_components`). -/
def monthOfDay (d : ℕ) : ℕ := monthFromDoy0 (isLeap (yearOfDay d)) (dayOfYear0 d)

/-- `np.searchsorted(l, v)` (left insertion point): on the sorted date
arrays it is applied to, this equals the number of elements `< v`. -/
def searchsortedLeft (l : List ℕ) (v : ℕ) : ℕ := l.countP (fun x => x < v)

/-- `np.unique`: the sorted list of distinct values (embedded with a
structural insertion sort so that the kernel can evaluate it). -/
def uniqueSorted (l : List ℕ) : List ℕ := (l.insertionSort (· ≤ ·)).dedup

/-- `extract_year_slices`: for every calendar year occurring in `dates`,
locate 1 January of that year and the next with `searchsorted` and keep
the window only when its day count equals the year's expected length. -/
def extractYearSlices (dates : List ℕ) : List (ℕ × ℕ × ℕ) :=
  (uniqueSorted (dates.map yearOfDay)).filterMap fun y =>
    let s := searchsortedLeft dates (yearStartDay y)
    let e := searchsortedLeft dates (yearStartDay (y + 1))
    if e - s = daysInYear y then some (y, s, e) else none

end Calendar

section IhaGroups

/-!
### Per-year IHA group computations (`fishy/iha/_groups.py`,
`fishy/iha/_util.py`) and the orchestrator (`fishy/iha/compute.py`)
-/

/-- `rolling_mean` (`np.convolve(x, ones(w)/w, mode="valid")`): the mean of
every length-`window` contiguous slice (empty when the series is shorter
than the window). -/
def rollingMean (x : List ℚ) (window : ℕ) : List ℚ :=
  (List.range (x.length + 1 - window)).map fun i =>
    ((x.drop i).take window).sum / (window : ℚ)

/-- Worker for `runLengths`: the second argument is the length of the
current open run of `true`. -/
def runLengthsAux : List Bool → ℕ → List ℕ
  | [], 0 => []
  | [], n + 1 => [n + 1]
  | false :: t, 0 => runLengthsAux t 0
  | false :: t, n + 1 => (n + 1) :: runLengthsAux t 0
  | true :: t, n => runLengthsAux t (n + 1)

/-- `run_lengths`: lengths of the maximal contiguous runs of `True` in a
boolean mask, in order of occurrence. -/
def runLengths (mask : List Bool) : List ℕ := runLengthsAux mask 0

/-- `np.argmin`: index of the first occurrence of the minimum. -/
def argminIdx (l : List ℚ) : ℕ := l.findIdx fun x => decide (x = listMinD l 0)

/-- `np.argmax`: index of the first occurrence of the maximum. -/
def argmaxIdx (l : List ℚ) : ℕ := l.findIdx fun x => decide (x = listMaxD l 0)

/-- `np.median`: middle element of the sorted list, or the average of the
two middle elements for an even length. -/
def median (l : List ℚ) : ℚ :=
  let s := l.insertionSort (· ≤ ·)
  let n := s.length
  if n % 2 = 1 then s.getD (n / 2) 0
  else (s.getD (n / 2 - 1) 0 + s.getD (n / 2) 0) / 2

/-- `compute_group1`: mean flow per calendar month (`none` = the NaN
sentinel for a month with no data). -/
def computeGroup1 (q : List ℚ) (months : List ℕ) : List (Option ℚ) :=
  (List.range 12).map fun m0 =>
    let sel := (q.zip months).filterMap fun p =>
      if p.2 = m0 + 1 then some p.1 else none
    if sel.isEmpty then none else some (listMean sel)

/-- `compute_group2`: rolling-mean extremes for windows 1/3/7/30/90 (five
minima then five maxima), count of days below the zero-flow threshold, and
the base-flow index (7-day rolling minimum over annual mean, `none` = NaN
when the annual mean is not above `1e-15`). -/
def computeGroup2 (q : List ℚ) (zeroFlowThreshold : ℚ) : List (Option ℚ) :=
  let windows : List ℕ := [1, 3, 7, 30, 90]
  let mins := windows.map fun w => listMinD (rollingMean q w) 0
  let maxs := windows.map fun w => listMaxD (rollingMean q w) 0
  let min7day := listMinD (rollingMean q 7) 0
  let zeroDays : ℚ := (q.countP fun x => decide (x < zeroFlowThreshold) : ℕ)
  let annualMean := listMean q
  let bfi : Option ℚ :=
    if 1 / 10 ^ 15 < annualMean then some (min7day / annualMean) else none
  (mins ++ maxs).map some ++ [some zeroDays, bfi]

/-- `compute_group3`: day-of-year of the annual minimum and maximum
(first occurrence on ties). -/
def computeGroup3 (q : List ℚ) (dayOfYear : List ℕ) : List ℚ :=
  [(dayOfYear.getD (argminIdx q) 0 : ℚ), (dayOfYear.getD (argmaxIdx q) 0 : ℚ)]

/-- `compute_group4`: count and mean duration of maximal runs strictly
below the low pulse threshold, then strictly above the high one (mean 0,
not NaN, when there are no runs). -/
def computeGroup4 (q : List ℚ) (lowThresh highThresh : ℚ) : List ℚ :=
  let lowRuns := runLengths (q.map fun x => decide (x < lowThresh))
  let highRuns := runLengths (q.map fun x => decide (highThresh < x))
  [(lowRuns.length : ℚ),
   if 0 < lowRuns.length then listMean (lowRuns.map fun n => (n : ℚ)) else 0,
   (highRuns.length : ℚ),
   if 0 < highRuns.length then listMean (highRuns.map fun n => (n : ℚ)) else 0]

/-- Reversal count of `compute_group5`:
`np.sum(np.diff(np.signbit(diff)))`.  `np.signbit` is true exactly on the
strictly negative diffs (no negative zeros arise from differencing), and
`np.diff` on a boolean array is elementwise XOR, so this counts adjacent
positions of the first-difference series whose "strictly negative" flags
differ. -/
def reversalCount (q : List ℚ) : ℕ :=
  let signbits := (diffSeries q).map fun x => decide (x < 0)
  (List.zipWith (fun a b => a != b) signbits signbits.tail).count true

/-- `compute_group5`: median rise rate, median fall rate (0 when no
positive / negative diffs exist) and the reversal count. -/
def computeGroup5 (q : List ℚ) : List ℚ :=
  let diff := diffSeries q
  let pos := diff.filter fun x => decide (0 < x)
  let neg := diff.filter fun x => decide (x < 0)
  [if 0 < pos.length then median pos else 0,
   if 0 < neg.length then median neg else 0,
   (reversalCount q : ℚ)]

/-- `np.percentile(xs, p)` with the default linear interpolation:
`h = (n-1)·p/100`, interpolating between the sorted elements at
`⌊h⌋` and `⌊h⌋ + 1`. -/
def percentile (xs : List ℚ) (p : ℚ) : ℚ :=
  let s := xs.insertionSort (· ≤ ·)
  let n := s.length
  let h : ℚ := ((n : ℚ) - 1) * p / 100
  let i := (Int.floor h).toNat
  let f := h - (i : ℚ)
  s.getD i 0 + f * (s.getD (i + 1) (s.getD i 0) - s.getD i 0)

/-- `PulseThresholds` value object (`fishy/iha/types.py`). -/
structure PulseThresholds where
  low : ℚ
  high : ℚ
deriving DecidableEq

/-- `fishy/iha/errors.py` error taxonomy for `compute_iha`, plus the
`ValueError` that `PulseThresholds.__post_init__` raises on invalid
derived thresholds. -/
inductive IhaError where
  | dateFlowLengthMismatch (nDates nFlows : ℕ)
  | negativeFlow (nNegative : ℕ) (minValue : ℚ)
  | nonDailyTimestep (position : ℕ) (gapDays : ℤ)
  | insufficientData (nDays nYears minYears : ℕ)
  | invalidPulseThresholds (low high : ℚ)
deriving DecidableEq

/-- `PulseThresholds.__post_init__`: reject a negative threshold or
`low >= high`. -/
def mkPulseThresholds (low high : ℚ) : Except IhaError PulseThresholds :=
  if low < 0 then .error (.invalidPulseThresholds low high)
  else if high < 0 then .error (.invalidPulseThresholds low high)
  else if high ≤ low then .error (.invalidPulseThresholds low high)
  else .ok ⟨low, high⟩

/-- `pulse_thresholds_from_record`: Q25/Q75 of the full record. -/
def pulseThresholdsFromRecord (q : List ℚ) : Except IhaError PulseThresholds :=
  mkPulseThresholds (percentile q 25) (percentile q 75)

/-- `ZERO_FLOW_THRESHOLD` default. -/
def ZERO_FLOW_THRESHOLD : ℚ := 1 / 1000

/-- `np.diff(dates).astype(int64)`: the successive date gaps in days. -/
def gapSeries (dates : List ℕ) : List ℤ :=
  List.zipWith (fun (a b : ℕ) => (b : ℤ) - (a : ℤ)) dates dates.tail

/-- First position whose successive date gap differs from one day,
together with that gap (`np.diff(dates)` and `np.flatnonzero(diffs != 1)`
in step 3 of `compute_iha`; `none` when all gaps are exactly one day,
including arrays of length ≤ 1). -/
def firstBadGap (dates : List ℕ) : Option (ℕ × ℤ) :=
  match (gapSeries dates).findIdx? fun g => g != 1 with
  | some i => some (i, (gapSeries dates).getD i 0)
  | none => none

/-- `IHAResult` (`fishy/iha/types.py`): year×33 matrix (cells `none` = NaN),
year labels, and the configuration used. -/
structure IhaResult where
  values : List (List (Option ℚ))
  years : List ℕ
  zeroFlowThreshold : ℚ
  pulseThresholds : Option PulseThresholds
deriving DecidableEq

/-- One year's 33-column row in `compute_iha`'s loop: slice the flow,
month and day-of-year arrays to `[start, end)` and concatenate the five
group computations (the contiguous column ranges `Col.GROUPS`). -/
def buildYearRow (q : List ℚ) (months doy : List ℕ) (zeroFlowThreshold : ℚ)
    (pt : PulseThresholds) (s e : ℕ) : List (Option ℚ) :=
  let qYear := (q.drop s).take (e - s)
  let monthsYear := (months.drop s).take (e - s)
  let doyYear := (doy.drop s).take (e - s)
  computeGroup1 qYear monthsYear
    ++ computeGroup2 qYear zeroFlowThreshold
    ++ (computeGroup3 qYear doyYear).map some
    ++ (computeGroup4 qYear pt.low pt.high).map some
    ++ (computeGroup5 qYear).map some

/-- `compute_iha`: validate (length match, non-negative flows, daily
continuity, enough complete years, in that order), resolve pulse
thresholds (supplied, or derived from the record), then assemble one
33-column row per complete calendar year from the five group
computations. -/
def computeIha (q : List ℚ) (dates : List ℕ) (zeroFlowThreshold : ℚ)
    (pulseThresholds : Option PulseThresholds) (minYears : ℕ) :
    Except IhaError IhaResult :=
  if q.length ≠ dates.length then
    .error (.dateFlowLengthMismatch dates.length q.length)
  else if 0 < q.countP (fun x => decide (x < 0)) then
    .error (.negativeFlow (q.countP fun x => decide (x < 0)) (listMinD q 0))
  else
    match firstBadGap dates with
    | some pg => .error (.nonDailyTimestep pg.1 pg.2)
    | none =>
      let yearSlices := extractYearSlices dates
      if yearSlices.length < minYears then
        .error (.insufficientData q.length yearSlices.length minYears)
      else
        let ptE : Except IhaError PulseThresholds :=
          match pulseThresholds with
          | some pt => .ok pt
          | none => pulseThresholdsFromRecord q
        match ptE with
        | .error e => .error e
        | .ok pt =>
          let months := dates.map monthOfDay
          let doy := dates.map dayOfYear1
          let values := yearSlices.map fun ys =>
            buildYearRow q months doy zeroFlowThreshold pt ys.2.1 ys.2.2
          .ok ⟨values, yearSlices.map (·.1), zeroFlowThreshold, some pt⟩

end IhaGroups

section DhramPipeline

/-!
### DHRAM pipeline (`fishy/dhram/compute.py`, `fishy/dhram/_indicators.py`,
`fishy/dhram/types.py`) and IARI pipeline (`fishy/iari/compute.py`)

DHRAM's per-group summary statistics use two genuinely transcendental
floating-point helpers: `circular_mean_doy` (cos/sin/atan2) and the
square root inside `compute_cv`'s population standard deviation.  The
development is parametrised over arbitrary rational models `cmean` and
`sqrtQ` of those two functions; the theorems proved here hold for every
such model, hence in particular for the floating-point one.

Both classifiers consume NaN-free `IHAResult` matrices, embedded as
`IhaResultQ` (plain rational cells).  NumPy matrices are rectangular, so
`shape[1]` is embedded as the length of the first row (`ncols`).
-/

/-- An `IHAResult` as consumed by DHRAM/IARI, with all cells real. -/
structure IhaResultQ where
  values : List (List ℚ)
  years : List ℕ
  zeroFlowThreshold : ℚ
  pulseThresholds : Option PulseThresholds
deriving DecidableEq

/-- `shape[1]` of a (rectangular, non-empty) matrix. -/
def ncols (m : List (List ℚ)) : ℕ := (m.headD []).length

/-- Column `j` of a year×33 matrix across all years. -/
def column (values : List (List ℚ)) (j : ℕ) : List ℚ :=
  values.map fun row => row.getD j 0

/-- `_NEAR_ZERO = 1e-10`. -/
def NEAR_ZERO : ℚ := 1 / 10 ^ 10

/-- `_DAYS_PER_YEAR = 365.25`. -/
def DAYS_PER_YEAR : ℚ := 1461 / 4

/-- `safe_percent_change`: absolute percent change with near-zero
denominator handling. -/
def safePercentChange (natural impacted : ℚ) : ℚ :=
  if |natural| < NEAR_ZERO then
    if |impacted| < NEAR_ZERO then 0 else 100
  else |impacted - natural| / |natural| * 100

/-- `circular_distance_days`: shortest arc distance in days. -/
def circularDistanceDays (doyA doyB : ℚ) : ℚ :=
  let diff := |doyA - doyB|
  if DAYS_PER_YEAR / 2 < diff then DAYS_PER_YEAR - diff else diff

/-- `compute_cv` (coefficient of variation %, population std), with the
floating-point square root modelled by `sqrtQ`. -/
def computeCv (sqrtQ : ℚ → ℚ) (values : List ℚ) : ℚ :=
  let mean := listMean values
  if |mean| < NEAR_ZERO then 0
  else sqrtQ (listMean (values.map fun x => (x - mean) ^ 2)) / |mean| * 100

/-- `ScoringThresholds` (`fishy/dhram/types.py`). -/
structure ScoringThresholds where
  lower : ℚ
  intermediate : ℚ
  upper : ℚ
deriving DecidableEq

/-- `ScoringThresholds.score`: 3/2/1/0 points by decreasing threshold. -/
def ScoringThresholds.score (t : ScoringThresholds) (value : ℚ) : ℕ :=
  if t.upper ≤ value then 3
  else if t.intermediate ≤ value then 2
  else if t.lower ≤ value then 1
  else 0

/-- `EMPIRICAL_THRESHOLDS` (Black et al. 2005 Table 3), exact decimals. -/
def EMPIRICAL_THRESHOLDS : List ScoringThresholds :=
  [⟨199/10, 437/10, 675/10⟩, ⟨294/10, 976/10, 1657/10⟩,
   ⟨429/10, 882/10, 1334/10⟩, ⟨845/10, 1227/10, 1608/10⟩,
   ⟨70/10, 212/10, 355/10⟩, ⟨334/10, 503/10, 673/10⟩,
   ⟨364/10, 651/10, 938/10⟩, ⟨305/10, 761/10, 1216/10⟩,
   ⟨460/10, 827/10, 1194/10⟩, ⟨491/10, 799/10, 1106/10⟩]

/-- `SIMPLIFIED_THRESHOLDS`: uniform 10/30/50. -/
def SIMPLIFIED_THRESHOLDS : List ScoringThresholds :=
  List.replicate 10 ⟨10, 30, 50⟩

/-- `ThresholdVariant`. -/
inductive ThresholdVariant where
  | empirical
  | simplified
deriving DecidableEq

/-- Start column of each IHA group (`Col.GROUPS`). -/
def dhramGroupStart : ℕ → ℕ
  | 2 => 12
  | 3 => 24
  | 4 => 26
  | 5 => 30
  | _ => 0

/-- Parameter count per group as used by DHRAM
(`extract_dhram_group_params`: group 2 keeps only its first 10 of 12
columns, excluding zero-flow days and BFI). -/
def dhramGroupSize : ℕ → ℕ
  | 1 => 12
  | 2 => 10
  | 3 => 2
  | 4 => 4
  | 5 => 3
  | _ => 0

/-- `_compute_group_indicators`: the (Xa, Xb) pair for one group — the
average per-parameter mean change (circular for the timing group 3) and
the average per-parameter CV change (always linear). -/
def groupIndicatorValues (cmean : List ℚ → ℚ) (sqrtQ : ℚ → ℚ)
    (naturalValues impactedValues : List (List ℚ)) (g : ℕ) : ℚ × ℚ :=
  let n := dhramGroupSize g
  let meanChanges := (List.range n).map fun j =>
    let natCol := column naturalValues (dhramGroupStart g + j)
    let impCol := column impactedValues (dhramGroupStart g + j)
    if g = 3 then
      circularDistanceDays (cmean natCol) (cmean impCol) / DAYS_PER_YEAR * 100
    else
      safePercentChange (listMean natCol) (listMean impCol)
  let cvChanges := (List.range n).map fun j =>
    safePercentChange
      (computeCv sqrtQ (column naturalValues (dhramGroupStart g + j)))
      (computeCv sqrtQ (column impactedValues (dhramGroupStart g + j)))
  (listMean meanChanges, listMean cvChanges)

/-- `fishy/dhram/errors.py`. -/
inductive DhramError where
  | incompatible (naturalNParams impactedNParams : ℕ)
  | insufficientYears (seriesLabel : String) (nYears minYears : ℕ)
deriving DecidableEq

/-- `DHRAMResult` (the fields the numeric pipeline determines). -/
structure DhramResult where
  indicatorValues : List ℚ
  indicatorPoints : List ℕ
  totalPoints : ℕ
  preliminaryClass : ℕ
  flowCessation : Bool
  subdailyOscillation : Bool
  finalClass : ℕ
  wfdStatus : String
  naturalYears : ℕ
  impactedYears : ℕ
deriving DecidableEq

/-- `compute_dhram`: validate shapes (33 columns each) and year counts,
compute the 10 summary indicator values (1a, 1b, …, 5a, 5b), score each
against the selected threshold set, sum, classify, apply the
supplementary adjustment and attach the WFD label. -/
def computeDhram (cmean : List ℚ → ℚ) (sqrtQ : ℚ → ℚ)
    (natural impacted : IhaResultQ) (variant : ThresholdVariant)
    (flowCessation subdailyOscillation : Bool) (minYears : ℕ) :
    Except DhramError DhramResult :=
  if ncols natural.values ≠ 33 then
    .error (.incompatible (ncols natural.values) (ncols impacted.values))
  else if ncols impacted.values ≠ 33 then
    .error (.incompatible (ncols natural.values) (ncols impacted.values))
  else if natural.years.length < minYears then
    .error (.insufficientYears "natural" natural.years.length minYears)
  else if impacted.years.length < minYears then
    .error (.insufficientYears "impacted" impacted.years.length minYears)
  else
    let ts := if variant = ThresholdVariant.empirical
      then EMPIRICAL_THRESHOLDS else SIMPLIFIED_THRESHOLDS
    let v1 := groupIndicatorValues cmean sqrtQ natural.values impacted.values 1
    let v2 := groupIndicatorValues cmean sqrtQ natural.values impacted.values 2
    let v3 := groupIndicatorValues cmean sqrtQ natural.values impacted.values 3
    let v4 := groupIndicatorValues cmean sqrtQ natural.values impacted.values 4
    let v5 := groupIndicatorValues cmean sqrtQ natural.values impacted.values 5
    let vals := [v1.1, v1.2, v2.1, v2.2, v3.1, v3.2, v4.1, v4.2, v5.1, v5.2]
    let points := List.zipWith ScoringThresholds.score ts vals
    let totalPoints := points.sum
    let preliminaryClass := classify (totalPoints : ℤ)
    let finalClass :=
      applySupplementary preliminaryClass flowCessation subdailyOscillation
    .ok ⟨vals, points, totalPoints, preliminaryClass, flowCessation,
      subdailyOscillation, finalClass, wfdLabel finalClass,
      natural.years.length, impacted.years.length⟩

end DhramPipeline

section IariPipeline

/-- `fishy/iari/errors.py`, plus the two `ValueError`s of
`bands_from_iha` and `NaturalBands.__post_init__`. -/
inductive IariError where
  | incompatible (naturalNParams impactedNParams : ℕ)
  | insufficientYears (seriesLabel : String) (nYears minYears : ℕ)
  | missingPulseThresholds
  | invalidBands
deriving DecidableEq

/-- `NaturalBands`. -/
structure NaturalBands where
  q25 : List ℚ
  q75 : List ℚ
  pulseThresholds : PulseThresholds
deriving DecidableEq

/-- `bands_from_iha`: require stored pulse thresholds, then take the
per-column Q25/Q75 of the natural record (the `__post_init__` validation
`q25 ≤ q75` elementwise is the `invalidBands` branch). -/
def bandsFromIha (natural : IhaResultQ) : Except IariError NaturalBands :=
  match natural.pulseThresholds with
  | none => .error .missingPulseThresholds
  | some pt =>
    let q25 := (List.range 33).map fun j => percentile (column natural.values j) 25
    let q75 := (List.range 33).map fun j => percentile (column natural.values j) 75
    if (List.zipWith (fun a b => decide (a ≤ b)) q25 q75).all id then
      .ok ⟨q25, q75, pt⟩
    else
      .error .invalidBands

/-- `IARIResult` (the fields the numeric pipeline determines). -/
structure IariResultQ where
  deviations : List (List ℚ)
  years : List ℕ
  perYear : List ℚ
  overall : ℚ
  classification : String
  degenerateParams : List ℕ
  naturalYears : ℕ
  impactedYears : ℕ
deriving DecidableEq

/-- `compute_iari`: the same shape/year validations as `compute_dhram`,
then band derivation, per-cell deviations, per-year means, overall mean
and the Excellent/Good/Poor label. -/
def computeIari (natural impacted : IhaResultQ) (minYears : ℕ) :
    Except IariError IariResultQ :=
  if ncols natural.values ≠ 33 then
    .error (.incompatible (ncols natural.values) (ncols impacted.values))
  else if ncols impacted.values ≠ 33 then
    .error (.incompatible (ncols natural.values) (ncols impacted.values))
  else if natural.years.length < minYears then
    .error (.insufficientYears "natural" natural.years.length minYears)
  else if impacted.years.length < minYears then
    .error (.insufficientYears "impacted" impacted.years.length minYears)
  else
    match bandsFromIha natural with
    | .error e => .error e
    | .ok bands =>
      let deviations := computeDeviations impacted.values bands.q25 bands.q75
      let perYear := deviations.map listMean
      let overall := listMean perYear
      .ok ⟨deviations, impacted.years, perYear, overall, classifyIari overall,
        (List.range 33).filter
          (fun j => bands.q75.getD j 0 - bands.q25.getD j 0 = 0),
        natural.years.length, impacted.years.length⟩

end IariPipeline

/-- C4 spec side, modelled from the spec's words: count only the
transitions between a strictly positive and a strictly negative
first-difference, with zero diffs excluded from the sign comparison
(neither continuing nor breaking a run). -/
def specReversalCountZeroExcluded (q : List ℚ) : ℕ :=
  let signs := (diffSeries q).filterMap fun x =>
    if 0 < x then some true else if x < 0 then some false else none
  (List.zipWith (fun a b => a != b) signs signs.tail).count true

/-! ## Proof development -/

lemma daysInYear_lb (y : ℕ) : 365 ≤ daysInYear y := by
  unfold daysInYear; split <;> omega

lemma daysInYear_ub (y : ℕ) : daysInYear y ≤ 366 := by
  unfold daysInYear; split <;> omega

lemma sumDays_succ (y k : ℕ) :
    sumDays y (k + 1) = sumDays y k + daysInYear (y + k) := by
  simp [sumDays, List.range_succ]

lemma sumDays_cons (y k : ℕ) :
    sumDays y (k + 1) = daysInYear y + sumDays (y + 1) k := by
  unfold sumDays
  rw [List.range_succ_eq_map, List.map_cons, List.sum_cons, List.map_map]
  have h : ((fun i => daysInYear (y + i)) ∘ Nat.succ)
      = fun i => daysInYear (y + 1 + i) := by
    funext i
    simp only [Function.comp_apply]
    congr 1
    omega
  rw [h]
  simp

lemma yearStartDay_succ {y : ℕ} (hy : 1970 ≤ y) :
    yearStartDay (y + 1) = yearStartDay y + daysInYear y := by
  unfold yearStartDay
  have h1 : y + 1 - 1970 = (y - 1970) + 1 := by omega
  rw [h1, sumDays_succ, show 1970 + (y - 1970) = y by omega]

/-- The fuel is irrelevant as soon as it exceeds the day count: each
recursion step removes at least one whole year (≥ 365 days). -/
lemma yearSplitAux_congr :
    ∀ f1 f2 y d, d < f1 → d < f2 → yearSplitAux f1 y d = yearSplitAux f2 y d := by
  intro f1
  induction f1 with
  | zero => intro f2 y d h1; omega
  | succ n ih =>
    intro f2 y d h1 h2
    cases f2 with
    | zero => omega
    | succ m =>
      by_cases h : d < daysInYear y
      · simp [yearSplitAux, h]
      · have hge : daysInYear y ≤ d := Nat.not_lt.mp h
        have hlb : 365 ≤ daysInYear y := daysInYear_lb y
        simp only [yearSplitAux, if_neg h]
        exact ih m (y + 1) (d - daysInYear y) (by omega) (by omega)

lemma yearSplit_of_lt {y d : ℕ} (h : d < daysInYear y) :
    yearSplit y d = (y, d) := by
  show yearSplitAux (d + 1) y d = (y, d)
  simp only [yearSplitAux]
  rw [if_pos h]

lemma yearSplit_of_ge {y d : ℕ} (h : daysInYear y ≤ d) :
    yearSplit y d = yearSplit (y + 1) (d - daysInYear y) := by
  have hlb : 365 ≤ daysInYear y := daysInYear_lb y
  show yearSplitAux (d + 1) y d
      = yearSplitAux (d - daysInYear y + 1) (y + 1) (d - daysInYear y)
  rw [show d + 1 = (d - daysInYear y + daysInYear y) + 1 by omega]
  simp only [yearSplitAux]
  rw [if_neg (by omega : ¬ d < daysInYear y)]
  exact yearSplitAux_congr (d - daysInYear y + daysInYear y)
    (d - daysInYear y + 1) (y + 1) (d - daysInYear y) (by omega) (by omega)

/-- `yearSplit` lands exactly at the year whose window contains the day. -/
lemma yearSplit_add (y : ℕ) :
    ∀ k o, o < daysInYear (y + k) → yearSplit y (sumDays y k + o) = (y + k, o) := by
  intro k
  induction k generalizing y with
  | zero =>
    intro o ho
    simp only [sumDays, List.range_zero, List.map_nil, List.sum_nil, Nat.zero_add]
    exact yearSplit_of_lt (by simpa using ho)
  | succ n ih =>
    intro o ho
    rw [sumDays_cons]
    rw [Nat.add_assoc, yearSplit_of_ge (by omega)]
    have h2 : daysInYear y + (sumDays (y + 1) n + o) - daysInYear y
        = sumDays (y + 1) n + o := by omega
    rw [h2]
    have h3 : y + 1 + n = y + (n + 1) := by omega
    rw [ih (y + 1) o (by rw [h3]; exact ho), h3]

/-- Characterisation of `yearSplit`: it only moves forward, and the day
decomposes as whole years plus a residue shorter than the landing year. -/
lemma yearSplit_spec (y d : ℕ) :
    y ≤ (yearSplit y d).1 ∧
    d = sumDays y ((yearSplit y d).1 - y) + (yearSplit y d).2 ∧
    (yearSplit y d).2 < daysInYear (yearSplit y d).1 := by
  induction d using Nat.strong_induction_on generalizing y with
  | _ d ih =>
    by_cases h : d < daysInYear y
    · rw [yearSplit_of_lt h]
      simp [sumDays, h]
    · have hge : daysInYear y ≤ d := Nat.not_lt.mp h
      have hpos : 365 ≤ daysInYear y := daysInYear_lb y
      rw [yearSplit_of_ge hge]
      have hlt : d - daysInYear y < d := by omega
      obtain ⟨h1, h2, h3⟩ := ih (d - daysInYear y) hlt (y + 1)
      refine ⟨by omega, ?_, h3⟩
      have hk : (yearSplit (y + 1) (d - daysInYear y)).1 - y
          = ((yearSplit (y + 1) (d - daysInYear y)).1 - (y + 1)) + 1 := by omega
      rw [hk, sumDays_cons]
      omega

lemma yearSplit_yearStart_add {y o : ℕ} (hy : 1970 ≤ y)
    (ho : o < daysInYear y) :
    yearSplit 1970 (yearStartDay y + o) = (y, o) := by
  have hy' : 1970 + (y - 1970) = y := by omega
  have h := yearSplit_add 1970 (y - 1970) o (by rw [hy']; exact ho)
  rw [hy'] at h
  exact h

lemma yearOfDay_yearStart_add {y o : ℕ} (hy : 1970 ≤ y)
    (ho : o < daysInYear y) :
    yearOfDay (yearStartDay y + o) = y ∧ dayOfYear0 (yearStartDay y + o) = o := by
  unfold yearOfDay dayOfYear0
  rw [yearSplit_yearStart_add hy ho]
  exact ⟨rfl, rfl⟩

/-- Every epoch day lies in the window of its computed year. -/
lemma yearOfDay_bounds (d : ℕ) :
    1970 ≤ yearOfDay d ∧
    yearStartDay (yearOfDay d) + dayOfYear0 d = d ∧
    dayOfYear0 d < daysInYear (yearOfDay d) := by
  obtain ⟨h1, h2, h3⟩ := yearSplit_spec 1970 d
  refine ⟨h1, ?_, h3⟩
  show yearStartDay ((yearSplit 1970 d).1) + (yearSplit 1970 d).2 = d
  unfold yearStartDay
  omega

lemma mem_uniqueSorted {l : List ℕ} {a : ℕ} : a ∈ uniqueSorted l ↔ a ∈ l := by
  simp [uniqueSorted, List.mem_dedup, List.mem_insertionSort]

lemma countP_range' (a n v : ℕ) :
    (List.range' a n).countP (fun x => x < v) = min n (v - a) := by
  induction n generalizing a with
  | zero => simp
  | succ m ih =>
    rw [List.range'_succ, List.countP_cons, ih]
    by_cases h : a < v
    · rw [if_pos (by simpa using h)]
      omega
    · rw [if_neg (by simpa using h)]
      omega

lemma searchsortedLeft_range' (a n v : ℕ) :
    searchsortedLeft (List.range' a n) v = min n (v - a) :=
  countP_range' a n v

/-- C1: for a valid band (`q25 ≤ q75`, the `NaturalBands` invariant
enforced on every pair accepted by `compute_iari`), the reported deviation
is 0 inside the band; outside a non-degenerate band it is
`max (q25 - x) (x - q75) / (q75 - q25)`; and for a degenerate band
(`q75 = q25`, whose only in-band value is the collapsed natural value
`q25`) it is 1 when the impacted value differs from that value and 0
otherwise. -/
theorem iari_deviation_band_formula (q25 q75 x : ℚ) (hband : q25 ≤ q75) :
    (q25 ≤ x ∧ x ≤ q75 → deviationElem q25 q75 x = 0) ∧
    (q25 < q75 → ¬(q25 ≤ x ∧ x ≤ q75) →
      deviationElem q25 q75 x = max (q25 - x) (x - q75) / (q75 - q25)) ∧
    (q25 = q75 → deviationElem q25 q75 x = if x ≠ q25 then 1 else 0) := by
  unfold deviationElem
  refine ⟨?_, ?_, ?_⟩
  · rintro ⟨h1, h2⟩
    have hb : q25 - x ≤ 0 := by linarith
    have ha : x - q75 ≤ 0 := by linarith
    have hraw : max (max (q25 - x) (x - q75)) 0 = 0 :=
      max_eq_right (max_le hb ha)
    by_cases hiqr : 0 < q75 - q25 <;> simp [hraw, hiqr]
  · intro hlt hout
    have hiqr : 0 < q75 - q25 := by linarith
    have hpos : 0 < max (q25 - x) (x - q75) := by
      rcases not_and_or.mp hout with h | h
      · exact lt_max_of_lt_left (by linarith [lt_of_not_le h])
      · exact lt_max_of_lt_right (by linarith [lt_of_not_le h])
    have hraw : max (max (q25 - x) (x - q75)) 0 = max (q25 - x) (x - q75) :=
      max_eq_left hpos.le
    simp [hiqr, hraw]
  · intro heq
    subst heq
    have hiqr : ¬(0 < q25 - q25) := by simp
    by_cases hx : x = q25
    · subst hx
      simp
    · have hpos : 0 < max (max (q25 - x) (x - q25)) 0 := by
        rcases lt_or_gt_of_ne hx with h | h
        · exact lt_max_of_lt_left (lt_max_of_lt_left (by linarith))
        · exact lt_max_of_lt_left (lt_max_of_lt_right (by linarith))
      simp only [sub_self, hiqr, if_false, hpos, if_pos]
      simp [hx]

/-- Closed witness for C1: band `[1, 3]`, impacted value `5` — outside the
band, deviation `(5-3)/(3-1) = 1`; and the degenerate-band clause at
`q25 = q75`. -/
theorem iari_deviation_band_formula_witness :
    deviationElem 1 3 5 = max (1 - 5) (5 - 3) / (3 - 1) ∧
    deviationElem 2 2 7 = 1 := by
  constructor
  · exact (iari_deviation_band_formula 1 3 5 (by norm_num)).2.1 (by norm_num)
      (by norm_num)
  · have h := (iari_deviation_band_formula 2 2 7 le_rfl).2.2 rfl
    simpa using h

/-- C2: for every point total in `[0, 30]`, `classify` returns the 1-based
index of the highest class boundary `≤ total_points` (equivalently, the
number of boundaries `≤ total_points`, the boundaries being sorted and
distinct), and in particular 0 ↦ 1, 1 ↦ 2, 5 ↦ 3, 11 ↦ 4, 21 ↦ 5. -/
theorem dhram_classify_boundaries :
    (∀ p : ℕ, p < 31 → classify p = highestBoundaryIndex p) ∧
    classify 0 = 1 ∧ classify 1 = 2 ∧ classify 5 = 3 ∧
    classify 11 = 4 ∧ classify 21 = 5 := by
  refine ⟨?_, by decide, by decide, by decide, by decide, by decide⟩
  decide

/-- Closed witness for C2 at 17 points (class 4). -/
theorem dhram_classify_boundaries_witness :
    (17 : ℕ) < 31 ∧ classify 17 = highestBoundaryIndex 17 :=
  ⟨by decide, dhram_classify_boundaries.1 17 (by decide)⟩

/-- C3: for a preliminary class in `[1, 5]` and any flag pair,
`apply_supplementary` returns `min (preliminary + flags) 5`; hence the
final class lies between the preliminary class and 5, class 2 with both
flags becomes 4, class 4 with both flags is capped at 5, and class 5
stays 5. -/
theorem dhram_apply_supplementary_cap (pre : ℕ) (h1 : 1 ≤ pre)
    (h5 : pre ≤ 5) (fc so : Bool) :
    applySupplementary pre fc so
        = min (pre + (if fc then 1 else 0) + (if so then 1 else 0)) 5 ∧
    pre ≤ applySupplementary pre fc so ∧
    applySupplementary pre fc so ≤ 5 ∧
    applySupplementary 2 true true = 4 ∧
    applySupplementary 4 true true = 5 ∧
    applySupplementary 5 fc so = 5 := by
  unfold applySupplementary
  refine ⟨rfl, ?_, ?_, by decide, by decide, ?_⟩
  · cases fc <;> cases so <;> simp <;> omega
  · exact min_le_right _ _
  · cases fc <;> cases so <;> simp

/-- Closed witness for C3 at preliminary class 3 with one flag raised. -/
theorem dhram_apply_supplementary_cap_witness :
    applySupplementary 3 true false
        = min (3 + (if true then 1 else 0) + (if false then 1 else 0)) 5 ∧
    3 ≤ applySupplementary 3 true false := by
  have h := dhram_apply_supplementary_cap 3 (by decide) (by decide) true false
  exact ⟨h.1, h.2.1⟩

/-- Membership characterisation of `extract_year_slices` on a contiguous
daily range (the year window is produced iff fully covered). -/
lemma extractYearSlices_range'_mem (d0 n y s e : ℕ) :
    (y, s, e) ∈ extractYearSlices (List.range' d0 n) ↔
      1970 ≤ y ∧ d0 ≤ yearStartDay y ∧
      yearStartDay y + daysInYear y ≤ d0 + n ∧
      s = yearStartDay y - d0 ∧ e = s + daysInYear y := by
  have hsucc : ∀ y' : ℕ, 1970 ≤ y' →
      yearStartDay (y' + 1) = yearStartDay y' + daysInYear y' :=
    fun y' hy' => yearStartDay_succ hy'
  constructor
  · intro hmem
    unfold extractYearSlices at hmem
    obtain ⟨y', hy'mem, heq⟩ := List.mem_filterMap.mp hmem
    by_cases hcond : searchsortedLeft (List.range' d0 n) (yearStartDay (y' + 1))
        - searchsortedLeft (List.range' d0 n) (yearStartDay y') = daysInYear y'
    · rw [if_pos hcond] at heq
      obtain ⟨hy1, hs1, he1⟩ : y' = y ∧
          searchsortedLeft (List.range' d0 n) (yearStartDay y') = s ∧
          searchsortedLeft (List.range' d0 n) (yearStartDay (y' + 1)) = e := by
        have := Option.some.inj heq
        exact ⟨congrArg Prod.fst this, congrArg (fun p => p.2.1) this,
          congrArg (fun p => p.2.2) this⟩
      subst hy1
      rcases List.mem_map.mp (mem_uniqueSorted.mp hy'mem) with ⟨d, hdmem, hdy⟩
      have hd := List.mem_range'_1.mp hdmem
      obtain ⟨hge, hstart, hlt⟩ := yearOfDay_bounds d
      rw [hdy] at hge hstart hlt
      have h1970 : 1970 ≤ y' := hge
      simp only [searchsortedLeft_range'] at hs1 he1 hcond
      rw [hsucc y' h1970] at he1 hcond
      have hL := daysInYear_lb y'
      refine ⟨h1970, ?_, ?_, ?_, ?_⟩ <;> omega
    · rw [if_neg hcond] at heq
      exact absurd heq (by simp)
  · rintro ⟨h1970, hle, hcov, hs, he⟩
    have hL := daysInYear_lb y
    unfold extractYearSlices
    refine List.mem_filterMap.mpr ⟨y, ?_, ?_⟩
    · refine mem_uniqueSorted.mpr (List.mem_map.mpr ⟨yearStartDay y, ?_, ?_⟩)
      · exact List.mem_range'_1.mpr ⟨hle, by omega⟩
      · have := yearOfDay_yearStart_add (y := y) (o := 0) h1970 (by omega)
        simpa using this.1
    · rw [searchsortedLeft_range', searchsortedLeft_range', hsucc y h1970]
      rw [if_pos (by omega)]
      have hsv : min n (yearStartDay y - d0) = s := by omega
      have hev : min n (yearStartDay y + daysInYear y - d0) = e := by omega
      rw [hsv, hev]

/-- C7: on a contiguous daily date array `[d0, d0 + n)`, the calendar
segmenter returns exactly the windows of years that are fully covered:
`(y, s, e)` is produced iff the whole span of year `y` (of its expected
Gregorian length, 366 for leap years and 365 otherwise) lies inside the
array, with `s`/`e` its offsets; any partially covered year is silently
absent rather than an error (the function is total and simply omits it). -/
theorem iha_extract_year_slices_contiguous (d0 n y s e : ℕ) :
    (y, s, e) ∈ extractYearSlices (List.range' d0 n) ↔
      1970 ≤ y ∧ d0 ≤ yearStartDay y ∧
      yearStartDay y + daysInYear y ≤ d0 + n ∧
      s = yearStartDay y - d0 ∧ e = s + daysInYear y :=
  extractYearSlices_range'_mem d0 n y s e

/-- Closed witness for C7: a contiguous 500-day range from the epoch fully
covers 1970 (365 days) but only partially covers 1971, so the 1970 window
is returned and the partial 1971 window is silently excluded. -/
theorem iha_extract_year_slices_contiguous_witness :
    ((1970, 0, 365) ∈ extractYearSlices (List.range' 0 500)) ∧
    ¬ ((1971, 365, 730) ∈ extractYearSlices (List.range' 0 500)) := by
  constructor
  · exact (iha_extract_year_slices_contiguous 0 500 1970 0 365).mpr (by decide)
  · intro h
    have h2 := (iha_extract_year_slices_contiguous 0 500 1971 365 730).mp h
    revert h2
    decide

lemma zipWith_adj_count_congr (g1 g2 : ℚ → ℚ → Bool) :
    ∀ d : List ℚ, (∀ a ∈ d, ∀ b ∈ d, g1 a b = g2 a b) →
    (List.zipWith g1 d d.tail).count true = (List.zipWith g2 d d.tail).count true := by
  intro d
  induction d with
  | nil => intro _; rfl
  | cons x rest ih =>
    intro h
    cases rest with
    | nil => rfl
    | cons y t =>
      have hh := h x (by simp) y (by simp)
      have ih' := ih fun a ha b hb =>
        h a (List.mem_cons_of_mem _ ha) b (List.mem_cons_of_mem _ hb)
      simp only [List.tail_cons] at ih' ⊢
      simp only [List.zipWith_cons_cons, List.count_cons, hh, ih']

lemma zipWith_adj_count_map (f : ℚ → Bool) (g : ℚ → ℚ → Bool) :
    ∀ d : List ℚ, (∀ a ∈ d, ∀ b ∈ d, (f a != f b) = g a b) →
    (List.zipWith (fun a b => a != b) (d.map f) (d.map f).tail).count true
      = (List.zipWith g d d.tail).count true := by
  intro d
  induction d with
  | nil => intro _; rfl
  | cons x rest ih =>
    intro h
    cases rest with
    | nil => rfl
    | cons y t =>
      have hh := h x (by simp) y (by simp)
      have ih' := ih fun a ha b hb =>
        h a (List.mem_cons_of_mem _ ha) b (List.mem_cons_of_mem _ hb)
      simp only [List.map_cons, List.tail_cons] at ih' ⊢
      simp only [List.zipWith_cons_cons, List.count_cons, hh, ih']

lemma filterMap_eq_map_of_mem {α β : Type} (f : α → Option β) (g : α → β) :
    ∀ l : List α, (∀ x ∈ l, f x = some (g x)) → l.filterMap f = l.map g := by
  intro l
  induction l with
  | nil => intro _; rfl
  | cons x rest ih =>
    intro h
    rw [List.filterMap_cons, h x (by simp), List.map_cons,
      ih fun a ha => h a (List.mem_cons_of_mem _ ha)]

unseal Rat.add Rat.sub Rat.mul Rat.inv in
/-- C4 counterexample: on the year-length flow slice
`[2, 1, 1, 0, 0, …, 0]` the first-difference series is
`[-1, 0, -1, 0, …]`; the code (`np.signbit` + boolean `np.diff`) counts 3
reversals because the zero diffs are classed with the positives, while
the claim's rule (zero diffs excluded from the sign comparison) counts 0. -/
theorem iha_reversal_zero_diff_counterexample :
    reversalCount ([2, 1, 1, 0] ++ List.replicate 361 (0 : ℚ)) = 3 ∧
    specReversalCountZeroExcluded ([2, 1, 1, 0] ++ List.replicate 361 (0 : ℚ)) = 0 := by
  constructor
  · decide
  · decide

/-- C4 (amended): the Group 5 reversal count equals the number of adjacent
positions of the first-difference series where the "strictly negative"
classification changes — a zero diff counts as a (non-negative) sign
grouped with the positive diffs, so zero↔negative adjacencies count as
reversals while zero↔positive adjacencies do not; whenever no zero diff
occurs, this coincides with the claim's strictly-positive↔strictly-negative
rule. -/
theorem iha_reversal_signbit_rule (q : List ℚ) :
    reversalCount q
      = (List.zipWith
          (fun a b => decide ((a < 0 ∧ 0 ≤ b) ∨ (0 ≤ a ∧ b < 0)))
          (diffSeries q) (diffSeries q).tail).count true ∧
    ((∀ x ∈ diffSeries q, x ≠ 0) →
      reversalCount q = specReversalCountZeroExcluded q) := by
  constructor
  · unfold reversalCount
    refine zipWith_adj_count_map _ _ (diffSeries q) fun a _ b _ => ?_
    by_cases ha : a < 0 <;> by_cases hb : b < 0
    · simp [ha, hb, not_le.mpr ha, not_le.mpr hb]
    · simp [ha, hb, not_lt.mp hb]
    · simp [ha, hb, not_lt.mp ha]
    · simp [ha, hb]
  · intro hz
    unfold specReversalCountZeroExcluded
    have hfm : (diffSeries q).filterMap
          (fun x => if 0 < x then some true else if x < 0 then some false else none)
        = (diffSeries q).map fun x => decide (0 < x) := by
      refine filterMap_eq_map_of_mem _ _ _ fun x hx => ?_
      rcases lt_trichotomy x 0 with h | h | h
      · simp [h, show ¬ (0 < x) by linarith]
      · exact absurd h (hz x hx)
      · simp [h]
    rw [hfm]
    unfold reversalCount
    rw [zipWith_adj_count_map (fun x => decide (x < 0))
      (fun a b => decide (a < 0) != decide (b < 0)) (diffSeries q)
      (fun a _ b _ => rfl)]
    rw [zipWith_adj_count_map (fun x => decide (0 < x))
      (fun a b => decide (0 < a) != decide (0 < b)) (diffSeries q)
      (fun a _ b _ => rfl)]
    refine zipWith_adj_count_congr _ _ (diffSeries q) fun a ha b hb => ?_
    have ha0 := hz a ha
    have hb0 := hz b hb
    by_cases hA : a < 0 <;> by_cases hB : b < 0
    · simp [hA, hB, show ¬ (0 < a) by linarith, show ¬ (0 < b) by linarith]
    · have : 0 < b := lt_of_le_of_ne (not_lt.mp hB) (Ne.symm hb0)
      simp [hA, hB, this, show ¬ (0 < a) by linarith]
    · have : 0 < a := lt_of_le_of_ne (not_lt.mp hA) (Ne.symm ha0)
      simp [hA, hB, this, show ¬ (0 < b) by linarith]
    · have h1 : 0 < a := lt_of_le_of_ne (not_lt.mp hA) (Ne.symm ha0)
      have h2 : 0 < b := lt_of_le_of_ne (not_lt.mp hB) (Ne.symm hb0)
      simp [hA, hB, h1, h2]

unseal Rat.add Rat.sub Rat.mul Rat.inv in
/-- Closed witness for C4's amended zero-free clause: the slice
`[1, 3, 2, 4]` has first differences `[2, -1, 2]` with no zeros, and both
counting rules agree (2 reversals). -/
theorem iha_reversal_signbit_rule_witness :
    (∀ x ∈ diffSeries [1, 3, 2, 4], x ≠ (0 : ℚ)) ∧
    reversalCount [1, 3, 2, 4] = specReversalCountZeroExcluded [1, 3, 2, 4] :=
  ⟨by decide, (iha_reversal_signbit_rule [1, 3, 2, 4]).2 (by decide)⟩

lemma foldl_min_le_init (l : List ℚ) : ∀ acc : ℚ, l.foldl min acc ≤ acc := by
  induction l with
  | nil => intro acc; simp
  | cons x t ih =>
    intro acc
    simp only [List.foldl_cons]
    exact le_trans (ih (min acc x)) (min_le_left _ _)

lemma foldl_min_le_mem (l : List ℚ) : ∀ (acc x : ℚ), x ∈ l → l.foldl min acc ≤ x := by
  induction l with
  | nil => intro acc x hx; cases hx
  | cons y t ih =>
    intro acc x hx
    simp only [List.foldl_cons]
    rcases List.mem_cons.mp hx with h | h
    · subst h
      exact le_trans (foldl_min_le_init t _) (min_le_right _ _)
    · exact ih _ x h

lemma le_foldl_min (l : List ℚ) : ∀ (acc c : ℚ), c ≤ acc → (∀ x ∈ l, c ≤ x) →
    c ≤ l.foldl min acc := by
  induction l with
  | nil => intro acc c h _; simpa using h
  | cons y t ih =>
    intro acc c hacc hall
    simp only [List.foldl_cons]
    exact ih _ _ (le_min hacc (hall y (by simp))) fun x hx => hall x (by simp [hx])

lemma listMinD_le_mem {l : List ℚ} {x : ℚ} (hx : x ∈ l) (d : ℚ) :
    listMinD l d ≤ x := by
  cases l with
  | nil => cases hx
  | cons y t =>
    show t.foldl min y ≤ x
    rcases List.mem_cons.mp hx with h | h
    · rw [h]; exact foldl_min_le_init t y
    · exact foldl_min_le_mem t y x h

lemma le_listMinD {l : List ℚ} {c : ℚ} (d : ℚ) (hne : l ≠ [])
    (hall : ∀ x ∈ l, c ≤ x) : c ≤ listMinD l d := by
  cases l with
  | nil => exact absurd rfl hne
  | cons y t =>
    exact le_foldl_min t y c (hall y (by simp)) fun x hx => hall x (by simp [hx])

lemma length_rollingMean (q : List ℚ) (w : ℕ) :
    (rollingMean q w).length = q.length + 1 - w := by
  simp [rollingMean]

lemma mem_rollingMean_iff {q : List ℚ} {w : ℕ} {x : ℚ} :
    x ∈ rollingMean q w ↔
      ∃ i < q.length + 1 - w, ((q.drop i).take w).sum / (w : ℚ) = x := by
  simp [rollingMean, List.mem_map, List.mem_range]

lemma rollingMean_nonneg {q : List ℚ} {w : ℕ} (hnn : ∀ x ∈ q, 0 ≤ x) :
    ∀ x ∈ rollingMean q w, 0 ≤ x := by
  intro x hx
  obtain ⟨i, _, hxe⟩ := mem_rollingMean_iff.mp hx
  rw [← hxe]
  apply div_nonneg _ (by positivity)
  exact List.sum_nonneg fun a ha =>
    hnn a (List.mem_of_mem_drop (List.mem_of_mem_take ha))

lemma rollingMean_ne_nil {q : List ℚ} (h : 7 ≤ q.length) :
    rollingMean q 7 ≠ [] := by
  intro hE
  have := length_rollingMean q 7
  rw [hE] at this
  simp at this
  omega

/-- Disjoint-window covering bound: the minimum 7-day rolling mean, scaled
by `7 · ⌊n/7⌋`, is at most the total flow (flows non-negative). -/
lemma min7_window_bound :
    ∀ (n : ℕ) (q : List ℚ), q.length = n → 7 ≤ n → (∀ x ∈ q, 0 ≤ x) →
      listMinD (rollingMean q 7) 0 * (7 * ((n / 7 : ℕ) : ℚ)) ≤ q.sum := by
  intro n
  induction n using Nat.strong_induction_on with
  | _ n ih =>
    intro q hlen h7 hnn
    have h7len : 7 ≤ q.length := by omega
    have hne : rollingMean q 7 ≠ [] := rollingMean_ne_nil h7len
    have hfirstmem : (q.take 7).sum / ((7 : ℕ) : ℚ) ∈ rollingMean q 7 :=
      mem_rollingMean_iff.mpr ⟨0, by omega, by simp⟩
    have hmfirst : listMinD (rollingMean q 7) 0 ≤ (q.take 7).sum / ((7 : ℕ) : ℚ) :=
      listMinD_le_mem hfirstmem 0
    have hm0 : 0 ≤ listMinD (rollingMean q 7) 0 :=
      le_listMinD 0 hne (rollingMean_nonneg hnn)
    have htake : (q.take 7).sum + (q.drop 7).sum = q.sum :=
      List.sum_take_add_sum_drop q 7
    have h7m : listMinD (rollingMean q 7) 0 * 7 ≤ (q.take 7).sum := by
      have h7pos : (0 : ℚ) < ((7 : ℕ) : ℚ) := by norm_num
      have := (le_div_iff₀ h7pos).mp hmfirst
      simpa using this
    by_cases hcase : n < 14
    · have hdiv : n / 7 = 1 := by omega
      rw [hdiv]
      have hdropnn : 0 ≤ (q.drop 7).sum :=
        List.sum_nonneg fun x hx => hnn x (List.mem_of_mem_drop hx)
      push_cast
      linarith
    · have htlen : (q.drop 7).length = n - 7 := by
        rw [List.length_drop, hlen]
      have h7t : 7 ≤ n - 7 := by omega
      have htnn : ∀ x ∈ q.drop 7, 0 ≤ x := fun x hx =>
        hnn x (List.mem_of_mem_drop hx)
      have hIH := ih (n - 7) (by omega) (q.drop 7) htlen h7t htnn
      have hmle : listMinD (rollingMean q 7) 0
          ≤ listMinD (rollingMean (q.drop 7) 7) 0 := by
        refine le_listMinD 0 (rollingMean_ne_nil (by omega)) fun x hx => ?_
        obtain ⟨i, hi, hxe⟩ := mem_rollingMean_iff.mp hx
        refine listMinD_le_mem (mem_rollingMean_iff.mpr ⟨7 + i, ?_, ?_⟩) 0
        · rw [htlen] at hi; omega
        · rw [← hxe, List.drop_drop]
      have hdivsplit : n / 7 = (n - 7) / 7 + 1 := by omega
      rw [hdivsplit]
      push_cast
      have hKnn : (0 : ℚ) ≤ 7 * (((n - 7) / 7 : ℕ) : ℚ) := by positivity
      have hstep : listMinD (rollingMean q 7) 0 * (7 * (((n - 7) / 7 : ℕ) : ℚ))
          ≤ listMinD (rollingMean (q.drop 7) 7) 0 * (7 * (((n - 7) / 7 : ℕ) : ℚ)) :=
        mul_le_mul_of_nonneg_right hmle hKnn
      nlinarith [hIH, h7m, htake, hstep]

/-- The base-flow-index cell of `compute_group2` (column 11 of the group,
column 23 overall). -/
lemma computeGroup2_getD11 (q : List ℚ) (zft : ℚ) :
    (computeGroup2 q zft).getD 11 none
      = if 1 / 10 ^ 15 < listMean q
        then some (listMinD (rollingMean q 7) 0 / listMean q) else none := rfl

lemma computeGroup2_bfi_none_iff (q : List ℚ) (zft : ℚ) :
    (computeGroup2 q zft).getD 11 none = none ↔ listMean q ≤ 1 / 10 ^ 15 := by
  rw [computeGroup2_getD11]
  by_cases hc : 1 / 10 ^ 15 < listMean q
  · rw [if_pos hc]
    exact ⟨fun h => absurd h (by simp), fun hle => absurd hc (by linarith)⟩
  · rw [if_neg hc]
    simpa using not_lt.mp hc

lemma computeGroup2_bfi_bound {q : List ℚ} {zft b : ℚ} (h7 : 7 ≤ q.length)
    (hnn : ∀ x ∈ q, 0 ≤ x)
    (hb : (computeGroup2 q zft).getD 11 none = some b) :
    0 ≤ b ∧ b * (7 * ((q.length / 7 : ℕ) : ℚ)) ≤ (q.length : ℚ) := by
  rw [computeGroup2_getD11] at hb
  by_cases hc : 1 / 10 ^ 15 < listMean q
  · rw [if_pos hc] at hb
    have hbv : b = listMinD (rollingMean q 7) 0 / listMean q :=
      (Option.some.inj hb).symm
    have hmean_pos : 0 < listMean q := lt_trans (by norm_num) hc
    have hm0 : 0 ≤ listMinD (rollingMean q 7) 0 :=
      le_listMinD 0 (rollingMean_ne_nil h7) (rollingMean_nonneg hnn)
    have hlen_pos : (0 : ℚ) < (q.length : ℚ) := by
      have : 0 < q.length := by omega
      exact_mod_cast this
    have hsum : (q.length : ℚ) * listMean q = q.sum := by
      unfold listMean
      field_simp
    have hbound := min7_window_bound q.length q rfl h7 hnn
    constructor
    · rw [hbv]; exact div_nonneg hm0 hmean_pos.le
    · rw [hbv, div_mul_eq_mul_div, div_le_iff₀ hmean_pos]
      calc listMinD (rollingMean q 7) 0 * (7 * ((q.length / 7 : ℕ) : ℚ))
          ≤ q.sum := hbound
        _ = (q.length : ℚ) * listMean q := hsum.symm
  · rw [if_neg hc] at hb
    exact absurd hb (by simp)

lemma sumDays_le_succ (y k : ℕ) : sumDays y k ≤ sumDays y (k + 1) := by
  rw [sumDays_succ]
  omega

lemma yearStartDay_le_succ (y : ℕ) : yearStartDay y ≤ yearStartDay (y + 1) := by
  unfold yearStartDay
  by_cases hy : 1970 ≤ y
  · rw [show y + 1 - 1970 = (y - 1970) + 1 by omega]
    exact sumDays_le_succ _ _
  · rw [show y - 1970 = 0 by omega]
    exact Nat.zero_le _

/-- Structural facts about any slice returned by `extract_year_slices`:
its day count is the year's expected length and it stays inside the date
array. -/
lemma extractYearSlices_mem_spec {dates : List ℕ} {y s e : ℕ}
    (h : (y, s, e) ∈ extractYearSlices dates) :
    e - s = daysInYear y ∧ e ≤ dates.length ∧ s ≤ e := by
  unfold extractYearSlices at h
  obtain ⟨y', hy'mem, heq⟩ := List.mem_filterMap.mp h
  by_cases hcond : searchsortedLeft dates (yearStartDay (y' + 1))
      - searchsortedLeft dates (yearStartDay y') = daysInYear y'
  · rw [if_pos hcond] at heq
    obtain ⟨hy1, hs1, he1⟩ : y' = y ∧
        searchsortedLeft dates (yearStartDay y') = s ∧
        searchsortedLeft dates (yearStartDay (y' + 1)) = e := by
      have := Option.some.inj heq
      exact ⟨congrArg Prod.fst this, congrArg (fun p => p.2.1) this,
        congrArg (fun p => p.2.2) this⟩
    subst hy1
    refine ⟨by omega, ?_, ?_⟩
    · rw [← he1]
      exact List.countP_le_length _
    · rw [← hs1, ← he1]
      refine List.countP_mono_left fun x _ hx => ?_
      have hmono := yearStartDay_le_succ y'
      simp only [decide_eq_true_eq] at hx ⊢
      omega
  · rw [if_neg hcond] at heq
    exact absurd heq (by simp)

/-- Inversion of a successful `compute_iha` run: the validations passed
(equal lengths, no negative flow, daily continuity) and the result is the
literal assembly of per-year rows over the extracted slices, with the
resolved pulse thresholds stored (never `None`). -/
lemma computeIha_ok_inv {q : List ℚ} {dates : List ℕ} {zft : ℚ}
    {pt0 : Option PulseThresholds} {my : ℕ} {r : IhaResult}
    (h : computeIha q dates zft pt0 my = .ok r) :
    q.length = dates.length ∧ (∀ x ∈ q, 0 ≤ x) ∧ firstBadGap dates = none ∧
    ∃ pt : PulseThresholds,
      r.values = (extractYearSlices dates).map (fun ys =>
        buildYearRow q (dates.map monthOfDay) (dates.map dayOfYear1) zft pt
          ys.2.1 ys.2.2) ∧
      r.years = (extractYearSlices dates).map (·.1) ∧
      r.pulseThresholds = some pt := by
  unfold computeIha at h
  by_cases h1 : q.length ≠ dates.length
  · rw [if_pos h1] at h
    exact absurd h (by simp)
  · rw [if_neg h1] at h
    by_cases h2 : 0 < q.countP fun x => decide (x < 0)
    · rw [if_pos h2] at h
      exact absurd h (by simp)
    · rw [if_neg h2] at h
      have hnn : ∀ x ∈ q, 0 ≤ x := by
        have hz : q.countP (fun x => decide (x < 0)) = 0 := by omega
        intro x hx
        have := List.countP_eq_zero.mp hz x hx
        simpa using this
      cases hfb : firstBadGap dates with
      | some pg =>
        rw [hfb] at h
        exact absurd h (by simp)
      | none =>
        rw [hfb] at h
        by_cases h4 : (extractYearSlices dates).length < my
        · rw [if_pos h4] at h
          exact absurd h (by simp)
        · rw [if_neg h4] at h
          refine ⟨by omega, hnn, rfl, ?_⟩
          cases pt0 with
          | some pt =>
            simp only [] at h
            have hr := (Except.ok.inj h).symm
            exact ⟨pt, by rw [hr], by rw [hr], by rw [hr]⟩
          | none =>
            simp only [] at h
            cases hd : pulseThresholdsFromRecord q with
            | error e =>
              rw [hd] at h
              exact absurd h (by simp)
            | ok pt =>
              rw [hd] at h
              have hr := (Except.ok.inj h).symm
              exact ⟨pt, by rw [hr], by rw [hr], by rw [hr]⟩

lemma computeGroup1_length (q : List ℚ) (months : List ℕ) :
    (computeGroup1 q months).length = 12 := by
  simp [computeGroup1]

lemma computeGroup2_length (q : List ℚ) (zft : ℚ) :
    (computeGroup2 q zft).length = 12 := by
  simp [computeGroup2]

lemma computeGroup3_length (q : List ℚ) (doy : List ℕ) :
    (computeGroup3 q doy).length = 2 := by
  simp [computeGroup3]

lemma computeGroup4_length (q : List ℚ) (lo hi : ℚ) :
    (computeGroup4 q lo hi).length = 4 := by
  simp [computeGroup4]

/-- Column 23 of an assembled year row is the BFI cell of its Group 2
block. -/
lemma buildYearRow_getD23 (q : List ℚ) (months doy : List ℕ) (zft : ℚ)
    (pt : PulseThresholds) (s e : ℕ) :
    (buildYearRow q months doy zft pt s e).getD 23 none
      = (computeGroup2 ((q.drop s).take (e - s)) zft).getD 11 none := by
  unfold buildYearRow
  rw [List.getD_append _ _ _ _ (by
    simp [List.length_append, computeGroup1_length, computeGroup2_length,
      computeGroup3_length, computeGroup4_length])]
  rw [List.getD_append _ _ _ _ (by
    simp [List.length_append, computeGroup1_length, computeGroup2_length,
      computeGroup3_length])]
  rw [List.getD_append _ _ _ _ (by
    simp [List.length_append, computeGroup1_length, computeGroup2_length])]
  rw [List.getD_append_right _ _ _ _ (by rw [computeGroup1_length]; omega)]
  rw [computeGroup1_length]

/-- C5 (amended): for a year slice of non-negative flows, the base-flow
index is NaN exactly when the annual mean is not above `1e-15`; otherwise
it is non-negative and bounded by `n / (7·⌊n/7⌋)` — for calendar years
(365 or 366 days) that is at most `366/364`, slightly above 1, so the
interval `[0, 1]` of the original claim must be widened to
`[0, 366/364]`.  The second conjunct lifts the bound to every row of
every `compute_iha` result. -/
theorem iha_base_flow_index_range :
    (∀ (q : List ℚ) (zft : ℚ), 7 ≤ q.length → (∀ x ∈ q, 0 ≤ x) →
      (((computeGroup2 q zft).getD 11 none = none ↔ listMean q ≤ 1 / 10 ^ 15) ∧
       ∀ b : ℚ, (computeGroup2 q zft).getD 11 none = some b →
         0 ≤ b ∧ b * (7 * ((q.length / 7 : ℕ) : ℚ)) ≤ (q.length : ℚ))) ∧
    (∀ (q : List ℚ) (dates : List ℕ) (zft : ℚ)
        (pt : Option PulseThresholds) (my : ℕ) (r : IhaResult),
      computeIha q dates zft pt my = .ok r →
      ∀ row ∈ r.values, ∀ b : ℚ, row.getD 23 none = some b →
        0 ≤ b ∧ b ≤ 366 / 364) := by
  constructor
  · intro q zft h7 hnn
    exact ⟨computeGroup2_bfi_none_iff q zft,
      fun b hb => computeGroup2_bfi_bound h7 hnn hb⟩
  · intro q dates zft pt my r h row hrow b hb
    obtain ⟨hlen, hnn, -, pt', hvals, -, -⟩ := computeIha_ok_inv h
    rw [hvals] at hrow
    obtain ⟨ys, hys, hrow_eq⟩ := List.mem_map.mp hrow
    obtain ⟨y, s, e⟩ := ys
    obtain ⟨hL, hle, hse⟩ := extractYearSlices_mem_spec hys
    rw [← hrow_eq, buildYearRow_getD23] at hb
    have hqYlen : ((q.drop s).take (e - s)).length = daysInYear y := by
      simp only [List.length_take, List.length_drop]
      omega
    have h7Y : 7 ≤ ((q.drop s).take (e - s)).length := by
      rw [hqYlen]
      have := daysInYear_lb y
      omega
    have hqYnn : ∀ x ∈ (q.drop s).take (e - s), 0 ≤ x := fun x hx =>
      hnn x (List.mem_of_mem_drop (List.mem_of_mem_take hx))
    obtain ⟨hb0, hbound⟩ := computeGroup2_bfi_bound h7Y hqYnn hb
    rw [hqYlen] at hbound
    have h52 : daysInYear y / 7 = 52 := by
      unfold daysInYear
      split <;> norm_num
    rw [h52] at hbound
    have hub : ((daysInYear y : ℕ) : ℚ) ≤ 366 := by
      exact_mod_cast daysInYear_ub y
    refine ⟨hb0, ?_⟩
    have h364 : b * 364 ≤ 366 := by
      have : (7 : ℚ) * ((52 : ℕ) : ℚ) = 364 := by norm_num
      rw [this] at hbound
      linarith
    linarith

/-- Closed witness for C5's amended bound: the constant week-long slice
`[1, …, 1]` has BFI exactly 1, which satisfies the amended bound
`b · (7·⌊n/7⌋) ≤ n`. -/
theorem iha_base_flow_index_range_witness :
    0 ≤ (1 : ℚ) ∧
    (1 : ℚ) * (7 * (((List.replicate 7 (1 : ℚ)).length / 7 : ℕ) : ℚ))
      ≤ ((List.replicate 7 (1 : ℚ)).length : ℚ) :=
  (iha_base_flow_index_range.1 (List.replicate 7 1) 0 (by decide)
    (by decide)).2 1 (by decide!)

/-- C5 counterexample: the 365-day year 1971 with flow 7 on every day
`≡ 3 (mod 7)` (positions 3, 10, …, 361) and 0 elsewhere.  Every 7-day
window contains exactly one spike, so the minimum 7-day rolling mean is 1,
while the annual mean is only `364/365`; `compute_iha` (with supplied
pulse thresholds 1 < 2) therefore reports a base-flow index of
`365/364 > 1`, outside the claimed interval `[0, 1]` and not NaN. -/
theorem iha_base_flow_index_counterexample :
    (match computeIha ((List.range 365).map fun i => if i % 7 = 3 then (7 : ℚ) else 0)
        (List.range' 365 365) (1 / 1000) (some ⟨1, 2⟩) 1 with
      | .ok r => (r.values.getD 0 []).getD 23 none
      | .error _ => none) = some (365 / 364) ∧ ¬ ((365 : ℚ) / 364 ≤ 1) := by
  constructor
  · decide!
  · norm_num

lemma gapList_length (dates : List ℕ) :
    (gapSeries dates).length
      = dates.length - 1 := by
  unfold gapSeries
  rw [List.length_zipWith, List.length_tail]
  omega

lemma gapList_getElem? (dates : List ℕ) (j : ℕ) (h : j + 1 < dates.length) :
    (gapSeries dates)[j]?
      = some ((dates.getD (j + 1) 0 : ℤ) - (dates.getD j 0 : ℤ)) := by
  have hj : j < dates.length := by omega
  unfold gapSeries
  rw [List.getElem?_zipWith, List.getElem?_tail,
    List.getElem?_eq_getElem hj, List.getElem?_eq_getElem h]
  rw [List.getD_eq_getElem dates 0 hj, List.getD_eq_getElem dates 0 h]

/-- `firstBadGap` returns `none` exactly when every successive date gap is
one day. -/
lemma firstBadGap_none_iff (dates : List ℕ) :
    firstBadGap dates = none ↔
      ∀ j, j + 1 < dates.length →
        (dates.getD (j + 1) 0 : ℤ) - (dates.getD j 0 : ℤ) = 1 := by
  unfold firstBadGap
  cases hf : List.findIdx? (fun g => g != 1)
      (gapSeries dates) with
  | some k =>
    simp only [hf]
    constructor
    · intro h
      exact absurd h (by simp)
    · intro hall
      obtain ⟨hk, hp, -⟩ := List.findIdx?_eq_some_iff_getElem.mp hf
      have hkl : k < (gapSeries dates).length := hk
      rw [gapList_length] at hk
      have hk1 : k + 1 < dates.length := by omega
      have hget := gapList_getElem? dates k hk1
      have hval : (gapSeries dates).get ⟨k, hkl⟩
          = (dates.getD (k + 1) 0 : ℤ) - (dates.getD k 0 : ℤ) := by
        rw [List.getElem?_eq_getElem hkl] at hget
        exact Option.some.inj hget
      rw [List.get_eq_getElem] at hval
      rw [hval] at hp
      rw [hall k hk1] at hp
      simp at hp
  | none =>
    simp only [hf]
    constructor
    · intro _ j hj
      have hmem : ((dates.getD (j + 1) 0 : ℤ) - (dates.getD j 0 : ℤ))
          ∈ gapSeries dates := by
        have := gapList_getElem? dates j hj
        exact List.getElem?_mem this
      have := List.findIdx?_eq_none_iff.mp hf _ hmem
      simpa using this
    · intro _
      trivial

/-- When `firstBadGap` reports `(i, g)`: `i` is in range, `g` is the gap
at `i`, that gap is not one day, and all earlier gaps are one day. -/
lemma firstBadGap_some_spec {dates : List ℕ} {i : ℕ} {g : ℤ}
    (h : firstBadGap dates = some (i, g)) :
    i + 1 < dates.length ∧
    g = (dates.getD (i + 1) 0 : ℤ) - (dates.getD i 0 : ℤ) ∧ g ≠ 1 ∧
    ∀ j < i, (dates.getD (j + 1) 0 : ℤ) - (dates.getD j 0 : ℤ) = 1 := by
  unfold firstBadGap at h
  cases hf : List.findIdx? (fun g => g != 1)
      (gapSeries dates) with
  | none =>
    rw [hf] at h
    exact absurd h (by simp)
  | some k =>
    rw [hf] at h
    obtain ⟨hki, hkg⟩ : k = i ∧
        (gapSeries dates).getD k 0 = g := by
      have := Option.some.inj h
      exact ⟨congrArg Prod.fst this, congrArg Prod.snd this⟩
    subst hki
    obtain ⟨hk, hp, hprev⟩ := List.findIdx?_eq_some_iff_getElem.mp hf
    rw [gapList_length] at hk
    have hk1 : k + 1 < dates.length := by omega
    have hget := gapList_getElem? dates k hk1
    have hkl : k < (gapSeries dates).length := by
      rw [gapList_length]; omega
    have hval : (gapSeries dates).get ⟨k, hkl⟩
        = (dates.getD (k + 1) 0 : ℤ) - (dates.getD k 0 : ℤ) := by
      rw [List.getElem?_eq_getElem hkl] at hget
      exact Option.some.inj hget
    rw [List.get_eq_getElem] at hval
    have hgv : g = (dates.getD (k + 1) 0 : ℤ) - (dates.getD k 0 : ℤ) := by
      rw [← hkg, List.getD_eq_getElem _ _ hkl, hval]
    refine ⟨hk1, hgv, ?_, ?_⟩
    · rw [hgv]
      rw [hval] at hp
      simpa using hp
    · intro j hj
      have hj1 : j + 1 < dates.length := by omega
      have hjl : j < (gapSeries dates).length := by
        rw [gapList_length]; omega
      have hgetj := gapList_getElem? dates j hj1
      have hvalj : (gapSeries dates).get ⟨j, hjl⟩
          = (dates.getD (j + 1) 0 : ℤ) - (dates.getD j 0 : ℤ) := by
        rw [List.getElem?_eq_getElem hjl] at hgetj
        exact Option.some.inj hgetj
      rw [List.get_eq_getElem] at hvalj
      have := hprev j hj
      rw [hvalj] at this
      simpa using this

/-- C8 (amended): `compute_iha` checks its four validations in the stated
order — length mismatch, negative flows (reporting the count of negatives
and the record minimum), the first non-daily gap (reporting the earliest
violating position and its gap, all earlier gaps being one day), then
insufficient complete years — but when all four pass it may still raise a
fifth error: with no supplied pulse thresholds, threshold derivation from
the record fails (invalid-pulse-thresholds `ValueError`) whenever the
record's Q25/Q75 are degenerate; a result is returned in the remaining
cases. -/
theorem iha_error_order (q : List ℚ) (dates : List ℕ) (zft : ℚ)
    (pt : Option PulseThresholds) (my : ℕ) :
    (q.length ≠ dates.length →
      computeIha q dates zft pt my
        = .error (.dateFlowLengthMismatch dates.length q.length)) ∧
    (q.length = dates.length → (∃ x ∈ q, x < 0) →
      computeIha q dates zft pt my
        = .error (.negativeFlow (q.countP fun x => decide (x < 0)) (listMinD q 0)) ∧
      (∀ x ∈ q, listMinD q 0 ≤ x)) ∧
    (q.length = dates.length → (∀ x ∈ q, 0 ≤ x) →
      ∀ i g, firstBadGap dates = some (i, g) →
        computeIha q dates zft pt my = .error (.nonDailyTimestep i g) ∧
        i + 1 < dates.length ∧
        g = (dates.getD (i + 1) 0 : ℤ) - (dates.getD i 0 : ℤ) ∧ g ≠ 1 ∧
        (∀ j < i, (dates.getD (j + 1) 0 : ℤ) - (dates.getD j 0 : ℤ) = 1)) ∧
    (q.length = dates.length → (∀ x ∈ q, 0 ≤ x) → firstBadGap dates = none →
      (extractYearSlices dates).length < my →
      computeIha q dates zft pt my
        = .error (.insufficientData q.length (extractYearSlices dates).length my)) ∧
    (q.length = dates.length → (∀ x ∈ q, 0 ≤ x) → firstBadGap dates = none →
      my ≤ (extractYearSlices dates).length →
      (∀ ptv, pt = some ptv → ∃ r, computeIha q dates zft pt my = .ok r) ∧
      (∀ er, pt = none → pulseThresholdsFromRecord q = .error er →
        computeIha q dates zft pt my = .error er) ∧
      (∀ ptv, pt = none → pulseThresholdsFromRecord q = .ok ptv →
        ∃ r, computeIha q dates zft pt my = .ok r)) := by
  have hzero : (∀ x ∈ q, 0 ≤ x) →
      ¬ 0 < q.countP fun x => decide (x < 0) := by
    intro hnn
    have hz : q.countP (fun x => decide (x < 0)) = 0 :=
      List.countP_eq_zero.mpr fun a ha => by
        simpa using not_lt.mpr (hnn a ha)
    omega
  refine ⟨?_, ?_, ?_, ?_, ?_⟩
  · intro h1
    unfold computeIha
    rw [if_pos h1]
  · intro h1 hneg
    have h2 : 0 < q.countP fun x => decide (x < 0) :=
      List.countP_pos_iff.mpr (by
        obtain ⟨x, hx, hlt⟩ := hneg
        exact ⟨x, hx, by simpa using hlt⟩)
    refine ⟨?_, fun x hx => listMinD_le_mem hx 0⟩
    unfold computeIha
    rw [if_neg (not_ne_iff.mpr h1), if_pos h2]
  · intro h1 hnn i g hfb
    obtain ⟨hs1, hs2, hs3, hs4⟩ := firstBadGap_some_spec hfb
    refine ⟨?_, hs1, hs2, hs3, hs4⟩
    unfold computeIha
    rw [if_neg (not_ne_iff.mpr h1), if_neg (hzero hnn), hfb]
  · intro h1 hnn hfb h4
    unfold computeIha
    rw [if_neg (not_ne_iff.mpr h1), if_neg (hzero hnn), hfb, if_pos h4]
  · intro h1 hnn hfb hmy
    have h4 : ¬ (extractYearSlices dates).length < my := not_lt.mpr hmy
    refine ⟨?_, ?_, ?_⟩
    · intro ptv hptv
      subst hptv
      unfold computeIha
      rw [if_neg (not_ne_iff.mpr h1), if_neg (hzero hnn), hfb, if_neg h4]
      exact ⟨_, rfl⟩
    · intro er hpt0 her
      subst hpt0
      unfold computeIha
      rw [if_neg (not_ne_iff.mpr h1), if_neg (hzero hnn), hfb, if_neg h4]
      dsimp only []
      rw [her]
    · intro ptv hpt0 hok
      subst hpt0
      unfold computeIha
      rw [if_neg (not_ne_iff.mpr h1), if_neg (hzero hnn), hfb, if_neg h4]
      dsimp only []
      rw [hok]
      exact ⟨_, rfl⟩

/-- C8 counterexample: a constant positive record over a full calendar
year with no supplied pulse thresholds passes all four validations, yet
`compute_iha` raises the pulse-threshold `ValueError` (derived
`Q25 = Q75 = 5`), an error outside the claim's four-error taxonomy. -/
theorem iha_error_taxonomy_counterexample :
    (match computeIha (List.replicate 365 (5 : ℚ)) (List.range' 0 365)
        (1 / 1000) none 1 with
      | .error e => some e
      | .ok _ => none) = some (.invalidPulseThresholds 5 5) := by
  decide!

/-- Closed witness for C8's negative-flow clause: flows `[3, -2]` report
one negative value with minimum `-2`. -/
theorem iha_error_order_witness :
    computeIha [3, -2] [0, 1] (1 / 1000) none 1
      = .error (.negativeFlow
          (List.countP (fun x => decide (x < 0)) [3, -2]) (listMinD [3, -2] 0)) ∧
    ∀ x ∈ [(3 : ℚ), -2], listMinD [3, -2] 0 ≤ x :=
  (iha_error_order [3, -2] [0, 1] (1 / 1000) none 1).2.1 rfl
    ⟨-2, by decide, by decide⟩

/-- A date array with no bad gap is a contiguous daily range. -/
lemma contiguous_of_firstBadGap_none {dates : List ℕ}
    (h : firstBadGap dates = none) :
    dates = List.range' (dates.headD 0) dates.length := by
  have hgap := (firstBadGap_none_iff dates).mp h
  have hstep : ∀ k, k < dates.length → dates.getD k 0 = dates.headD 0 + k := by
    intro k
    induction k with
    | zero =>
      intro hk
      cases dates with
      | nil => simp at hk
      | cons d t => simp [List.getD_cons_zero]
    | succ j ih =>
      intro hk
      have hj := ih (by omega)
      have hg := hgap j (by omega)
      omega
  refine List.ext_getElem (by simp) ?_
  intro i h1 h2
  rw [List.getElem_range']
  have := hstep i h1
  rw [List.getD_eq_getElem _ _ h1] at this
  omega

/-- Every month 1-12 occurs at some 0-based day-of-year below 365, for
both leap and non-leap years. -/
lemma month_coverage :
    ∀ (leap : Bool), ∀ m0 < 12, ∃ o < 365, monthFromDoy0 leap o = m0 + 1 := by
  decide

/-- Cell `j < 12` of an assembled year row is the Group 1 cell `j`. -/
lemma buildYearRow_getD_lt12 (q : List ℚ) (months doy : List ℕ) (zft : ℚ)
    (pt : PulseThresholds) (s e j : ℕ) (hj : j < 12) :
    (buildYearRow q months doy zft pt s e).getD j none
      = (computeGroup1 ((q.drop s).take (e - s))
          ((months.drop s).take (e - s))).getD j none := by
  unfold buildYearRow
  rw [List.getD_append _ _ _ _ (by
    simp [List.length_append, computeGroup1_length, computeGroup2_length,
      computeGroup3_length, computeGroup4_length]
    omega)]
  rw [List.getD_append _ _ _ _ (by
    simp [List.length_append, computeGroup1_length, computeGroup2_length,
      computeGroup3_length]
    omega)]
  rw [List.getD_append _ _ _ _ (by
    simp [List.length_append, computeGroup1_length, computeGroup2_length]
    omega)]
  rw [List.getD_append _ _ _ _ (by rw [computeGroup1_length]; omega)]

/-- A Group 1 monthly-mean cell is real (not the NaN sentinel) as soon as
its month occurs somewhere in the slice. -/
lemma computeGroup1_getD_isSome {qY : List ℚ} {monthsY : List ℕ} {j : ℕ}
    (hj : j < 12)
    (hex : ∃ o, o < monthsY.length ∧ o < qY.length ∧ monthsY.getD o 0 = j + 1) :
    ((computeGroup1 qY monthsY).getD j none).isSome := by
  obtain ⟨o, ho, hoq, hom⟩ := hex
  unfold computeGroup1
  rw [List.getD_eq_getElem _ _ (by simp [hj] : j < ((List.range 12).map _).length)]
  rw [List.getElem_map, List.getElem_range]
  have hzlen : o < (qY.zip monthsY).length := by
    rw [List.length_zip]
    omega
  have hmem : (qY.zip monthsY).get ⟨o, hzlen⟩ ∈ qY.zip monthsY :=
    List.get_mem _ _ _
  have hsnd : ((qY.zip monthsY).get ⟨o, hzlen⟩).2 = j + 1 := by
    rw [List.get_eq_getElem, List.getElem_zip]
    rw [List.getD_eq_getElem _ _ (by omega : o < monthsY.length)] at hom
    exact hom
  have hselmem : ((qY.zip monthsY).get ⟨o, hzlen⟩).1 ∈ (qY.zip monthsY).filterMap
      (fun p => if p.2 = j + 1 then some p.1 else none) :=
    List.mem_filterMap.mpr ⟨_, hmem, by rw [if_pos hsnd]⟩
  have hEfalse : ((qY.zip monthsY).filterMap
      (fun p => if p.2 = j + 1 then some p.1 else none)).isEmpty = false := by
    by_cases hE : (qY.zip monthsY).filterMap
        (fun p => if p.2 = j + 1 then some p.1 else none) = []
    · rw [hE] at hselmem
      cases hselmem
    · exact eq_false_of_ne_true (by simpa [List.isEmpty_iff] using hE)
  simp [hEfalse]

/-- C9: every complete calendar-year slice that `compute_iha` feeds to
`compute_group1` covers all 12 months (the dates being validated daily
and the slice spanning a whole Gregorian year), so the NaN sentinel for
an empty month is unreachable: all 12 monthly-mean cells of every result
row are real numbers. -/
theorem iha_group1_months_complete (q : List ℚ) (dates : List ℕ) (zft : ℚ)
    (pt : Option PulseThresholds) (my : ℕ) (r : IhaResult)
    (h : computeIha q dates zft pt my = .ok r) :
    ∀ row ∈ r.values, ∀ j < 12, (row.getD j none).isSome := by
  intro row hrow j hj
  obtain ⟨hlen, hnn, hfb, ptv, hvals, -, -⟩ := computeIha_ok_inv h
  have hcont := contiguous_of_firstBadGap_none hfb
  rw [hvals] at hrow
  obtain ⟨ys, hys, hrow_eq⟩ := List.mem_map.mp hrow
  obtain ⟨y, s, e⟩ := ys
  dsimp only [] at hrow_eq
  rw [hcont] at hys
  obtain ⟨h1970, hd0, hcov, hs, he⟩ :=
    (extractYearSlices_range'_mem (dates.headD 0) dates.length y s e).mp hys
  have hL := daysInYear_lb y
  rw [← hrow_eq, buildYearRow_getD_lt12 _ _ _ _ _ _ _ _ hj]
  have hmlen : (((dates.map monthOfDay).drop s).take (e - s)).length = e - s := by
    simp only [List.length_take, List.length_drop, List.length_map]
    omega
  have hqlen : ((q.drop s).take (e - s)).length = e - s := by
    simp only [List.length_take, List.length_drop]
    omega
  obtain ⟨o, ho365, hom⟩ := month_coverage (isLeap y) j hj
  refine computeGroup1_getD_isSome hj ⟨o, ?_, ?_, ?_⟩
  · omega
  · omega
  · have holt : o < (((dates.map monthOfDay).drop s).take (e - s)).length := by
      omega
    rw [List.getD_eq_getElem _ _ holt, List.getElem_take, List.getElem_drop,
      List.getElem_map]
    have hidx : s + o < dates.length := by omega
    have hoY : o < daysInYear y := by omega
    have hsplit := yearOfDay_yearStart_add h1970 hoY
    have hdval : dates.get ⟨s + o, hidx⟩ = yearStartDay y + o := by
      rw [List.get_eq_getElem]
      have hgl := List.getElem_of_eq hcont hidx
      rw [hgl, List.getElem_range']
      omega
    rw [List.get_eq_getElem] at hdval
    rw [hdval]
    unfold monthOfDay
    rw [hsplit.1, hsplit.2]
    exact hom

/-- Closed witness for C9: the January cell of the single 1970 row of a
concrete `compute_iha` run is a real number. -/
theorem iha_group1_months_complete_witness :
    (match computeIha (List.replicate 365 (5 : ℚ)) (List.range' 0 365)
        (1 / 1000) (some ⟨1, 2⟩) 1 with
      | .ok r => (r.values.getD 0 []).getD 0 none
      | .error _ => none).isSome := by
  cases hc : computeIha (List.replicate 365 (5 : ℚ)) (List.range' 0 365)
      (1 / 1000) (some ⟨1, 2⟩) 1 with
  | error e =>
    exfalso
    have hok : (match computeIha (List.replicate 365 (5 : ℚ)) (List.range' 0 365)
        (1 / 1000) (some ⟨1, 2⟩) 1 with
      | .ok _ => true
      | .error _ => false) = true := by decide!
    rw [hc] at hok
    simp at hok
  | ok r =>
    have hlen1 : r.values.length = 1 := by
      have h1 : (match computeIha (List.replicate 365 (5 : ℚ)) (List.range' 0 365)
          (1 / 1000) (some ⟨1, 2⟩) 1 with
        | .ok r => r.values.length
        | .error _ => 0) = 1 := by decide!
      rw [hc] at h1
      exact h1
    have hmem : r.values.getD 0 [] ∈ r.values := by
      rw [List.getD_eq_getElem _ _ (by omega)]
      exact List.getElem_mem _
    exact iha_group1_months_complete _ _ _ _ _ r hc _ hmem 0 (by omega)

lemma safePercentChange_self (x : ℚ) : safePercentChange x x = 0 := by
  unfold safePercentChange
  by_cases h : |x| < NEAR_ZERO
  · rw [if_pos h, if_pos h]
  · rw [if_neg h]
    simp

lemma circularDistanceDays_self (x : ℚ) : circularDistanceDays x x = 0 := by
  unfold circularDistanceDays
  rw [sub_self, abs_zero, if_neg (by norm_num [DAYS_PER_YEAR])]

lemma listMean_replicate_zero (n : ℕ) :
    listMean (List.replicate n (0 : ℚ)) = 0 := by
  simp [listMean, List.sum_replicate]

/-- On identical natural/impacted matrices, every DHRAM group indicator
pair is (0, 0), for any model of the transcendental helpers. -/
lemma groupIndicatorValues_self (cmean : List ℚ → ℚ) (sqrtQ : ℚ → ℚ)
    (V : List (List ℚ)) (g : ℕ) :
    groupIndicatorValues cmean sqrtQ V V g = (0, 0) := by
  unfold groupIndicatorValues
  dsimp only
  have h1 : ((List.range (dhramGroupSize g)).map fun j =>
      if g = 3 then
        circularDistanceDays (cmean (column V (dhramGroupStart g + j)))
          (cmean (column V (dhramGroupStart g + j))) / DAYS_PER_YEAR * 100
      else
        safePercentChange (listMean (column V (dhramGroupStart g + j)))
          (listMean (column V (dhramGroupStart g + j))))
      = List.replicate (dhramGroupSize g) 0 := by
    rw [List.map_congr_left (g := fun _ => (0 : ℚ)) ?_]
    · simp
    intro j hj
    split
    · rw [circularDistanceDays_self]
      simp
    · exact safePercentChange_self _
  have h2 : ((List.range (dhramGroupSize g)).map fun j =>
      safePercentChange
        (computeCv sqrtQ (column V (dhramGroupStart g + j)))
        (computeCv sqrtQ (column V (dhramGroupStart g + j))))
      = List.replicate (dhramGroupSize g) 0 := by
    rw [List.map_congr_left (g := fun _ => (0 : ℚ)) ?_]
    · simp
    intro j hj
    exact safePercentChange_self _
  rw [h1, h2, listMean_replicate_zero]

/-- C6: for every model of the two transcendental helpers and every valid
(33-column, sufficiently long) `IHAResult`, `compute_dhram` applied to
identical natural and impacted inputs with both supplementary flags false
returns, under either threshold variant, a result with `total_points = 0`,
`final_class = 1` and `wfd_status = "High"`. -/
theorem dhram_identical_inputs (cmean : List ℚ → ℚ) (sqrtQ : ℚ → ℚ)
    (R : IhaResultQ) (variant : ThresholdVariant) (minYears : ℕ)
    (hcols : ncols R.values = 33) (hyears : minYears ≤ R.years.length) :
    ∃ out, computeDhram cmean sqrtQ R R variant false false minYears
        = .ok out ∧
      out.totalPoints = 0 ∧ out.finalClass = 1 ∧ out.wfdStatus = "High" := by
  unfold computeDhram
  rw [if_neg (not_ne_iff.mpr hcols), if_neg (not_ne_iff.mpr hcols),
    if_neg (not_lt.mpr hyears), if_neg (not_lt.mpr hyears)]
  simp only [groupIndicatorValues_self]
  cases variant with
  | empirical =>
    refine ⟨_, rfl, ?_, ?_, ?_⟩ <;> (dsimp only; decide!)
  | simplified =>
    refine ⟨_, rfl, ?_, ?_, ?_⟩ <;> (dsimp only; decide!)

/-- Closed witness for C6: a one-year all-zero 33-column result under the
empirical thresholds. -/
theorem dhram_identical_inputs_witness :
    ∃ out, computeDhram (fun _ => 0) (fun _ => 0)
        ⟨[List.replicate 33 0], [1990], 1 / 1000, none⟩
        ⟨[List.replicate 33 0], [1990], 1 / 1000, none⟩
        ThresholdVariant.empirical false false 1 = .ok out ∧
      out.totalPoints = 0 ∧ out.finalClass = 1 ∧ out.wfdStatus = "High" :=
  dhram_identical_inputs (fun _ => 0) (fun _ => 0)
    ⟨[List.replicate 33 0], [1990], 1 / 1000, none⟩
    ThresholdVariant.empirical 1 (by decide) (by decide)

/-- C10: `compute_iari` raises the missing-pulse-thresholds `ValueError`
whenever the natural record stores `None` there, even when both inputs
pass the 33-column and `min_years` validations (the thresholds check runs
only after them); and this error is unreachable for `compute_iha`
outputs, because `compute_iha` always stores resolved (non-`None`) pulse
thresholds. -/
theorem iari_missing_pulse_guard (natural impacted : IhaResultQ)
    (minYears : ℕ) (hc1 : ncols natural.values = 33)
    (hc2 : ncols impacted.values = 33)
    (hy1 : minYears ≤ natural.years.length)
    (hy2 : minYears ≤ impacted.years.length)
    (hpt : natural.pulseThresholds = none) :
    computeIari natural impacted minYears = .error .missingPulseThresholds ∧
    (∀ (q : List ℚ) (dates : List ℕ) (zft : ℚ)
        (pt0 : Option PulseThresholds) (my : ℕ) (r : IhaResult),
      computeIha q dates zft pt0 my = .ok r → r.pulseThresholds.isSome) := by
  constructor
  · unfold computeIari
    rw [if_neg (not_ne_iff.mpr hc1), if_neg (not_ne_iff.mpr hc2),
      if_neg (not_lt.mpr hy1), if_neg (not_lt.mpr hy2)]
    unfold bandsFromIha
    rw [hpt]
  · intro q dates zft pt0 my r h
    obtain ⟨-, -, -, pt, -, -, hr⟩ := computeIha_ok_inv h
    rw [hr]
    rfl

/-- Closed witness for C10: a shape-valid one-year pair whose natural
record lacks pulse thresholds. -/
theorem iari_missing_pulse_guard_witness :
    computeIari ⟨[List.replicate 33 0], [1990], 1 / 1000, none⟩
      ⟨[List.replicate 33 0], [1990], 1 / 1000, none⟩ 1
      = .error .missingPulseThresholds :=
  (iari_missing_pulse_guard ⟨[List.replicate 33 0], [1990], 1 / 1000, none⟩
    ⟨[List.replicate 33 0], [1990], 1 / 1000, none⟩ 1
    (by decide) (by decide) (by decide) (by decide) rfl).1

end Fishy
